import Mathlib

/-!
Shallow embedding of the expense-tracker script (src/expense-tracker.js):
an in-memory ledger of expense records with a validator, add/remove
operations and reporting aggregates.  JavaScript numbers are idealised
as rationals (the spec's "positive real number"), except that NaN is
kept as an explicit value because the source's validity check lets NaN
through.  Values of other JavaScript types are abstracted by the only
observations the source makes of them (`typeof` and the coerced
comparison with zero).
-/

namespace ExpenseTracker

/-- A JavaScript number as stored in an expense record: a finite numeric
value (idealised as a rational) or NaN. -/
inductive JSNum where
  | num (q : ℚ)
  | nan
deriving DecidableEq

/-- An arbitrary JavaScript value passed as the `amount` argument: a
number, or a non-number value abstracted by the one observation the
source makes of it, namely the boolean outcome of the coerced
comparison `v <= 0`. -/
inductive JSVal where
  | number (x : JSNum)
  | nonNumber (leZero : Bool)
deriving DecidableEq

/-- A JavaScript value passed as the `description` argument: the source
only tests `typeof description === "string"`, so non-strings are
collapsed to one constructor. -/
inductive JSDesc where
  | str (s : String)
  | nonString
deriving DecidableEq

/-- The source's test `amount <= 0` under JavaScript comparison
semantics: false for NaN, the recorded coercion outcome for
non-number values. -/
def jsLeZero : JSVal → Bool
  | .number (.num q) => decide (q ≤ 0)
  | .number .nan => false
  | .nonNumber b => b

/-- The source's test `typeof amount === "number"`; NaN is of number
type in JavaScript. -/
def isNumberType : JSVal → Bool
  | .number _ => true
  | .nonNumber _ => false

/-- The source's test `typeof description === "string"`. -/
def isStringDesc : JSDesc → Bool
  | .str _ => true
  | .nonString => false

/-- The spec's validation-error taxonomy.  The source logs one of four
messages; both amount messages ("Amount must be greater than 0" and
"Amount must be a number") are amount errors, mapped to
`InvalidAmount`. -/
inductive ValidationError where
  | InvalidAmount
  | InvalidCategory
  | InvalidDescription
deriving DecidableEq

/-- The fixed category set of the source (`categories`). -/
def categories : List String :=
  ["food", "transport", "entertainment", "utilities", "healthcare",
   "shopping", "other"]

/-- `checkValidity` from the source, branch for branch: `amount <= 0`
first, then `typeof amount !== "number"`, then category membership,
then `typeof description !== "string"`.  `none` is the source's
`return true`; `some e` is a `return false` after logging the
corresponding message. -/
def checkValidity (amount : JSVal) (category : String)
    (description : JSDesc) : Option ValidationError :=
  if jsLeZero amount then some .InvalidAmount
  else if !isNumberType amount then some .InvalidAmount
  else if !(categories.contains category) then some .InvalidCategory
  else if !(isStringDesc description) then some .InvalidDescription
  else none

/-- An expense record as built by `addExpense`.  The source also stores
a wall-clock `date`, which no claim observes; it is omitted here. -/
structure Expense where
  id : Nat
  amount : JSNum
  category : String
  description : JSDesc
deriving DecidableEq

/-- The outcome `addExpense` reports on the console: the new id on
success, the validation error otherwise. -/
inductive AddResult where
  | ok (id : Nat)
  | err (e : ValidationError)
deriving DecidableEq

/-- `addExpense` from the source: validate, then push a record whose id
is `expenses.length + 1`.  The stored amount is the number the
validator admitted (the validator rejects every non-number value, so
the last branch is unreachable). -/
def addExpense (s : List Expense) (amount : JSVal) (category : String)
    (description : JSDesc) : List Expense × AddResult :=
  match checkValidity amount category description with
  | some e => (s, .err e)
  | none =>
    match amount with
    | .number x =>
      (s ++ [{ id := s.length + 1, amount := x, category := category,
               description := description }], .ok (s.length + 1))
    | .nonNumber _ => (s, .err .InvalidAmount)

/-- The source's `expenses.findIndex((exp) => exp.id === id)`: index of
the first record with the given id. -/
def findIndex (p : Expense → Bool) : List Expense → Option Nat
  | [] => none
  | e :: rest => if p e then some 0 else (findIndex p rest).map (· + 1)

/-- `removeExpense` from the source: locate the first record with the
given id and splice it out.  Ids are naturals here, so the source's
`typeof id === "number"` guard is always satisfied.  The Bool records
which branch printed: `true` for "removed successfully", `false` for
"not found". -/
def removeExpense (s : List Expense) (id : Nat) : List Expense × Bool :=
  match findIndex (fun e => e.id == id) s with
  | some i => (s.eraseIdx i, true)
  | none => (s, false)

/-- Modelled from the spec: `findById(id) -> Option<Expense>` (spec
section 4.2).  The source has no standalone lookup function; its
`removeExpense` locates a record with the same first-match-by-id
search. -/
def findById (s : List Expense) (id : Nat) : Option Expense :=
  s.find? (fun e => e.id == id)

/-- JavaScript addition on stored amounts: exact on finite numbers,
absorbing on NaN. -/
def jsAdd : JSNum → JSNum → JSNum
  | .num a, .num b => .num (a + b)
  | _, _ => .nan

/-- The running-total loop of `calculateTotal` over a whole list
(`total += item.amount` starting from 0). -/
def jsSum (s : List Expense) : JSNum :=
  s.foldl (fun t e => jsAdd t e.amount) (.num 0)

/-- `calculateTotal` from the source.  An empty-string category means
no filter.  `none` models the early return on an empty ledger (the
source prints "No expenses found" and yields no total). -/
def calculateTotal (s : List Expense) (category : String) : Option JSNum :=
  if s.length = 0 then none
  else if category.length > 0 then
    some (s.foldl
      (fun t e => if e.category == category then jsAdd t e.amount else t)
      (.num 0))
  else some (jsSum s)

/-- One step of `generateReport`'s reduce: on first sight of a category
the object gains the entry `{total: 0, count: 0}`, then
`total += amount; count++`.  A JavaScript object holds one entry per
key and `Object.entries` yields string keys in insertion order, so
the object is an association list updated at its unique matching key
and extended at the end on first sight. -/
def bump (c : String) (a : JSNum) :
    List (String × JSNum × Nat) → List (String × JSNum × Nat)
  | [] => [(c, jsAdd (.num 0) a, 1)]
  | p :: rest =>
    if p.1 == c then (p.1, jsAdd p.2.1 a, p.2.2 + 1) :: rest
    else p :: bump c a rest

/-- `generateReport`'s `categoryTotals` reduce over the records. -/
def categoryTotals (s : List Expense) : List (String × JSNum × Nat) :=
  s.foldl (fun m e => bump e.category e.amount m) []

/-- `generateReport`'s `grandTotal` loop: `grandTotal += data.total`
over the entries, starting from 0. -/
def grandTotal (m : List (String × JSNum × Nat)) : JSNum :=
  m.foldl (fun t p => jsAdd t p.2.1) (.num 0)

/-- The sum of the `count` fields of the per-category entries. -/
def countSum (m : List (String × JSNum × Nat)) : Nat :=
  m.foldl (fun n p => n + p.2.2) 0

/-- JavaScript strict `>` on amounts: false whenever either side is
NaN. -/
def jsGt : JSNum → JSNum → Bool
  | .num a, .num b => decide (b < a)
  | _, _ => false

/-- One step of `generateReport`'s top-category reduce:
`data.total > max.total ? {category, total: data.total} : max`. -/
def pick (acc : String × JSNum) (p : String × JSNum × Nat) :
    String × JSNum :=
  if jsGt p.2.1 acc.2 then (p.1, p.2.1) else acc

/-- Positivity of a stored amount, the invariant the spec's data model
imposes on every record (`amount` strictly positive). -/
def amountPos : JSNum → Bool
  | .num q => decide (0 < q)
  | .nan => false

/-- JavaScript division for the report's average.  The zero-divisor
case is unreachable behind `generateReport`'s emptiness guard. -/
def jsDiv : JSNum → Nat → JSNum
  | .num a, n => if n = 0 then .nan else .num (a / n)
  | .nan, _ => .nan

/-- The aggregates printed by `generateReport`; the month label is
wall-clock display only and is omitted. -/
structure Report where
  entries : List (String × JSNum × Nat)
  total : JSNum
  average : JSNum
  top : String × JSNum
deriving DecidableEq

/-- `generateReport` from the source: `none` models the early
"No expenses to report" warning on an empty ledger; otherwise the
per-category entries, the grand total, the average, and the
top-category reduce with its empty-label zero sentinel. -/
def generateReport (s : List Expense) : Option Report :=
  if s.length = 0 then none
  else some
    { entries := categoryTotals s
      total := grandTotal (categoryTotals s)
      average := jsDiv (grandTotal (categoryTotals s)) s.length
      top := (categoryTotals s).foldl pick ("", .num 0) }

/-- The spec's `topCategory(records)`: the top entry of the report,
`none` on an empty ledger. -/
def topCategory (s : List Expense) : Option (String × JSNum) :=
  (generateReport s).map Report.top

/-- The spec's edit-error taxonomy: `NotFound`, or a validation error
on the merged record. -/
inductive EditError where
  | NotFound
  | Invalid (e : ValidationError)
deriving DecidableEq

/-- A partial field override for `edit(id, fields)`: absent fields keep
the existing record's values. -/
structure EditFields where
  amount : Option JSVal
  category : Option String
  description : Option JSDesc

/-- Modelled from the spec: `edit(id, fields)` (spec section 4.2) is
listed in the source's menu ("6. Edit Expense") but has no
implementation in the script.  Per the spec it fails with `NotFound`
when the id is absent, otherwise re-validates the merged record
through the source's `checkValidity` and commits only on success,
atomically.  `none` in the second component is success. -/
def editExpense (s : List Expense) (id : Nat) (f : EditFields) :
    List Expense × Option EditError :=
  match findById s id with
  | none => (s, some .NotFound)
  | some e =>
    let a := f.amount.getD (.number e.amount)
    let c := f.category.getD e.category
    let d := f.description.getD e.description
    match checkValidity a c d with
    | some err => (s, some (.Invalid err))
    | none =>
      match a with
      | .number x =>
        (s.map (fun e2 =>
          if e2.id == id then
            { e2 with amount := x, category := c, description := d }
          else e2), none)
      | .nonNumber _ => (s, some (.Invalid .InvalidAmount))

/-! Concrete ledgers used in the counterexamples.  `demoAdd2` is the
ledger after two successful additions (ids 1 and 2);
`demoAfterRemove1` removes the record with id 1; `demoDupIds` then
adds a third record, which receives id `length + 1 = 2` again. -/

def demoAdd2 : List Expense :=
  (addExpense (addExpense [] (.number (.num 10)) "food" (.str "a")).1
    (.number (.num 20)) "transport" (.str "b")).1

def demoAfterRemove1 : List Expense := (removeExpense demoAdd2 1).1

def demoDupIds : List Expense :=
  (addExpense demoAfterRemove1 (.number (.num 5)) "food" (.str "c")).1

/-! Shared lemmas about the embedding. -/

theorem jsAdd_zero_left (x : JSNum) : jsAdd (.num 0) x = x := by
  cases x <;> simp [jsAdd]

theorem jsAdd_zero_right (x : JSNum) : jsAdd x (.num 0) = x := by
  cases x <;> simp [jsAdd]

theorem jsAdd_comm (x y : JSNum) : jsAdd x y = jsAdd y x := by
  cases x <;> cases y <;> simp [jsAdd, add_comm]

theorem jsAdd_assoc (x y z : JSNum) :
    jsAdd (jsAdd x y) z = jsAdd x (jsAdd y z) := by
  cases x <;> cases y <;> cases z <;> simp [jsAdd, add_assoc]

theorem foldl_jsAdd_shift {α : Type} (f : α → JSNum) (l : List α)
    (t : JSNum) :
    l.foldl (fun t x => jsAdd t (f x)) t =
      jsAdd t (l.foldl (fun t x => jsAdd t (f x)) (.num 0)) := by
  induction l generalizing t with
  | nil => simp [jsAdd_zero_right]
  | cons y l ih =>
    simp only [List.foldl_cons]
    rw [ih (jsAdd t (f y)), ih (jsAdd (JSNum.num 0) (f y)),
      jsAdd_zero_left, jsAdd_assoc]

theorem checkValidity_eq_none (a : JSVal) (c : String) (d : JSDesc) :
    checkValidity a c d = none ↔
      (isNumberType a = true ∧ jsLeZero a = false ∧
       categories.contains c = true ∧ isStringDesc d = true) := by
  unfold checkValidity
  split_ifs with h1 h2 h3 h4 <;> simp_all

theorem checkValidity_none_number (a : JSVal) (c : String) (d : JSDesc)
    (h : checkValidity a c d = none) : ∃ x, a = .number x := by
  have hn := ((checkValidity_eq_none a c d).mp h).1
  cases a with
  | number x => exact ⟨x, rfl⟩
  | nonNumber b => simp [isNumberType] at hn

/-- C1: for every ledger state reachable by addExpense and
removeExpense calls, all stored ids are pairwise distinct and a freed
id is never reassigned.  This fails: ids are assigned as
`expenses.length + 1`, so after add, add, remove(1) the next addition
receives id 2 while a record with id 2 is still stored (duplicate
ids), and after add, add, remove(2) the next addition receives the
freed id 2 again. -/
theorem addExpense_id_reuse_bug :
    demoDupIds.map Expense.id = [2, 2] ∧
    ((addExpense (removeExpense demoAdd2 2).1
      (.number (.num 5)) "food" (.str "c")).1).map Expense.id = [1, 2] := by
  decide

/-- C2 counterexample: the claim says every amount that is not a
positive number, including NaN, is rejected with InvalidAmount; but
`NaN <= 0` is false and `typeof NaN === "number"`, so the source's
validity check accepts NaN. -/
theorem checkValidity_accepts_nan :
    checkValidity (.number .nan) "food" (.str "x") = none := by
  decide

/-- C2 (amended): checkValidity succeeds iff the amount is of number
type and the comparison `amount <= 0` is false (that is, the amount is
a positive number or NaN), the category is in the fixed set, and the
description is a string; and every amount that is non-numeric or
compares `<= 0` fails with InvalidAmount. -/
theorem checkValidity_verdict (a : JSVal) (c : String) (d : JSDesc) :
    (checkValidity a c d = none ↔
      (isNumberType a = true ∧ jsLeZero a = false ∧
       categories.contains c = true ∧ isStringDesc d = true)) ∧
    (isNumberType a = false ∨ jsLeZero a = true →
      checkValidity a c d = some .InvalidAmount) := by
  refine ⟨checkValidity_eq_none a c d, fun h => ?_⟩
  unfold checkValidity
  rcases h with h | h
  · cases hz : jsLeZero a <;> simp [hz, h]
  · simp [h]

/-- C2 witness: a concrete valid input is accepted. -/
theorem checkValidity_verdict_witness :
    checkValidity (.number (.num 5)) "food" (.str "x") = none :=
  (checkValidity_verdict (.number (.num 5)) "food" (.str "x")).1.mpr
    (by decide)

/-- C10 counterexample: on an empty ledger the claim says total
produces the number 0 as a successful result; the source's
calculateTotal instead returns early after printing "No expenses
found" and produces no number at all. -/
theorem calculateTotal_empty_counterexample :
    calculateTotal [] "" ≠ some (.num 0) := by
  decide

/-- C10 (amended): on an empty ledger, calculateTotal signals the
informational no-expenses state and produces no numeric total, and
generateReport (which computes the average) likewise returns early
with its EmptyLedger warning, so the average and the top category are
not produced. -/
theorem empty_ledger_reports :
    calculateTotal [] "" = none ∧ generateReport [] = none ∧
    topCategory [] = none := by
  refine ⟨rfl, rfl, rfl⟩

theorem findById_append_fresh (s : List Expense) (y : Expense)
    (h : ∀ e ∈ s, e.id ≠ y.id) : findById (s ++ [y]) y.id = some y := by
  induction s with
  | nil => simp [findById, List.find?]
  | cons e rest ih =>
    have hne : (e.id == y.id) = false := by
      simpa using h e (by simp)
    simpa [findById, List.find?, hne] using
      ih (fun e' he' => h e' (by simp [he']))

/-- C3 counterexample: on the reachable ledger that holds a single
record with id 2 (after add, add, remove(1)), a valid addition is
appended with id `length + 1 = 2` and reports id 2, but looking id 2
up finds the pre-existing record, whose fields are not the given
inputs. -/
theorem addExpense_lookup_counterexample :
    (addExpense demoAfterRemove1 (.number (.num 5)) "food" (.str "c")).2 =
      .ok 2 ∧
    ∃ e, findById
        (addExpense demoAfterRemove1 (.number (.num 5)) "food" (.str "c")).1
        2 = some e ∧ e.category ≠ "food" :=
  ⟨by decide, ⟨2, .num 20, "transport", .str "b"⟩, by decide, by decide⟩

/-- C3 (amended): for every ledger state in which no stored record
already carries id `length + 1`, and every valid input, addExpense
appends exactly one record with the given fields, reports its id, and
looking that id up in the resulting ledger yields the new record. -/
theorem addExpense_valid_appends (s : List Expense) (a : JSVal)
    (c : String) (d : JSDesc) (hok : checkValidity a c d = none)
    (hfresh : ∀ e ∈ s, e.id ≠ s.length + 1) :
    ∃ x, a = .number x ∧
      addExpense s a c d =
        (s ++ [⟨s.length + 1, x, c, d⟩], .ok (s.length + 1)) ∧
      findById (addExpense s a c d).1 (s.length + 1) =
        some ⟨s.length + 1, x, c, d⟩ := by
  obtain ⟨x, rfl⟩ := checkValidity_none_number a c d hok
  have hadd : addExpense s (.number x) c d =
      (s ++ [⟨s.length + 1, x, c, d⟩], .ok (s.length + 1)) := by
    simp [addExpense, hok]
  refine ⟨x, rfl, hadd, ?_⟩
  rw [hadd]
  exact findById_append_fresh s ⟨s.length + 1, x, c, d⟩ hfresh

/-- C3 witness: adding a valid expense to the empty ledger. -/
theorem addExpense_valid_appends_witness :
    ∃ x, JSVal.number (.num 10) = JSVal.number x ∧
      addExpense [] (.number (.num 10)) "food" (.str "lunch") =
        ([⟨1, x, "food", .str "lunch"⟩], .ok 1) ∧
      findById (addExpense [] (.number (.num 10)) "food" (.str "lunch")).1 1 =
        some ⟨1, x, "food", .str "lunch"⟩ :=
  addExpense_valid_appends [] (.number (.num 10)) "food" (.str "lunch")
    (by decide) (by simp)

/-- C4: an addition with an invalid input (amount comparing less than
or equal to zero, non-numeric amount, category outside the fixed set,
or non-string description) leaves the ledger exactly unchanged and
reports the corresponding validation error, the first failed check
deciding which. -/
theorem addExpense_invalid_no_mutation (s : List Expense) (a : JSVal)
    (c : String) (d : JSDesc) :
    (jsLeZero a = true ∨ isNumberType a = false →
      addExpense s a c d = (s, .err .InvalidAmount)) ∧
    (jsLeZero a = false → isNumberType a = true →
      categories.contains c = false →
      addExpense s a c d = (s, .err .InvalidCategory)) ∧
    (jsLeZero a = false → isNumberType a = true →
      categories.contains c = true → isStringDesc d = false →
      addExpense s a c d = (s, .err .InvalidDescription)) := by
  refine ⟨fun h => ?_, fun h1 h2 h3 => ?_, fun h1 h2 h3 h4 => ?_⟩
  · have hv : checkValidity a c d = some .InvalidAmount :=
      (checkValidity_verdict a c d).2 (Or.symm h)
    simp [addExpense, hv]
  · have h3' : c ∉ categories := by simpa using h3
    have hv : checkValidity a c d = some .InvalidCategory := by
      unfold checkValidity
      simp [h1, h2, h3']
    simp [addExpense, hv]
  · have h3' : c ∈ categories := by simpa using h3
    have hv : checkValidity a c d = some .InvalidDescription := by
      unfold checkValidity
      simp [h1, h2, h3', h4]
    simp [addExpense, hv]

/-- C4 witness: each kind of invalid input on a concrete ledger. -/
theorem addExpense_invalid_no_mutation_witness :
    addExpense demoAdd2 (.number (.num 0)) "food" (.str "x") =
      (demoAdd2, .err .InvalidAmount) ∧
    addExpense demoAdd2 (.nonNumber false) "food" (.str "x") =
      (demoAdd2, .err .InvalidAmount) ∧
    addExpense demoAdd2 (.number (.num 5)) "toys" (.str "x") =
      (demoAdd2, .err .InvalidCategory) ∧
    addExpense demoAdd2 (.number (.num 5)) "food" .nonString =
      (demoAdd2, .err .InvalidDescription) :=
  ⟨(addExpense_invalid_no_mutation demoAdd2 _ "food" (.str "x")).1
      (Or.inl (by decide)),
   (addExpense_invalid_no_mutation demoAdd2 _ "food" (.str "x")).1
      (Or.inr (by decide)),
   (addExpense_invalid_no_mutation demoAdd2 _ "toys" (.str "x")).2.1
      (by decide) (by decide) (by decide),
   (addExpense_invalid_no_mutation demoAdd2 _ "food" .nonString).2.2
      (by decide) (by decide) (by decide) (by decide)⟩

theorem findIndex_eq_none (p : Expense → Bool) (s : List Expense) :
    findIndex p s = none ↔ s.find? p = none := by
  induction s with
  | nil => simp [findIndex]
  | cons e rest ih =>
    by_cases hp : p e
    · simp [findIndex, hp, List.find?]
    · simp [findIndex, hp, List.find?, ih]

theorem removeExpense_present (id : Nat) :
    ∀ s : List Expense, s.Pairwise (fun e1 e2 => e1.id ≠ e2.id) →
    ∀ e, findById s id = some e →
      (removeExpense s id).1.length + 1 = s.length ∧
      (removeExpense s id).2 = true ∧
      findById (removeExpense s id).1 id = none := by
  intro s
  induction s with
  | nil => intro _ e he; simp [findById] at he
  | cons hd tl ih =>
    intro hnd e he
    obtain ⟨hhd, htl⟩ := List.pairwise_cons.mp hnd
    by_cases hb : (hd.id == id) = true
    · have hid : hd.id = id := by simpa using hb
      have hrm : removeExpense (hd :: tl) id = (tl, true) := by
        simp [removeExpense, findIndex, hb]
      refine ⟨by simp [hrm], by simp [hrm], ?_⟩
      rw [hrm]
      have hall : ∀ e2 ∈ tl, ¬ ((e2.id == id) = true) := by
        intro e2 he2 hc
        have he2id : e2.id = id := by simpa using hc
        exact hhd e2 he2 (hid.trans he2id.symm)
      simpa [findById] using List.find?_eq_none.mpr hall
    · have hbe : (hd.id == id) = false := by simpa using hb
      have he' : findById tl id = some e := by
        simpa [findById, List.find?, hbe] using he
      obtain ⟨i, hi⟩ : ∃ i, findIndex (fun e => e.id == id) tl = some i := by
        cases hfi : findIndex (fun e => e.id == id) tl with
        | none =>
          exact absurd he' (by simp [findById, (findIndex_eq_none _ tl).mp hfi])
        | some i => exact ⟨i, rfl⟩
      have hrm1 : removeExpense (hd :: tl) id = (hd :: tl.eraseIdx i, true) := by
        simp [removeExpense, findIndex, hbe, hi]
      have hrm2 : removeExpense tl id = (tl.eraseIdx i, true) := by
        simp [removeExpense, hi]
      obtain ⟨hlen, _, hfind⟩ := ih htl e he'
      simp only [hrm2] at hlen hfind
      refine ⟨?_, by simp [hrm1], ?_⟩
      · simp only [hrm1, List.length_cons] at hlen ⊢
        omega
      · simp only [hrm1]
        simpa [findById, List.find?, hbe] using hfind

/-- C5 counterexample: on the reachable ledger with duplicate id 2,
removing id 2 shortens the ledger by one but a lookup of id 2 still
finds a record, because only the first match was spliced out. -/
theorem removeExpense_duplicate_id_counterexample :
    (removeExpense demoDupIds 2).1.length + 1 = demoDupIds.length ∧
    (removeExpense demoDupIds 2).2 = true ∧
    findById (removeExpense demoDupIds 2).1 2 =
      some ⟨2, .num 5, "food", .str "c"⟩ := by
  refine ⟨by decide, by decide, by decide⟩

/-- C5 (amended): for every ledger state whose stored ids are pairwise
distinct and every id, a removal of an absent id reports not-found and
leaves the ledger unchanged, and a removal of a present id shortens
the ledger by exactly one and makes a subsequent lookup of that id
find nothing. -/
theorem removeExpense_spec (s : List Expense) (id : Nat)
    (hnd : s.Pairwise (fun e1 e2 => e1.id ≠ e2.id)) :
    (findById s id = none → removeExpense s id = (s, false)) ∧
    (∀ e, findById s id = some e →
      (removeExpense s id).1.length + 1 = s.length ∧
      (removeExpense s id).2 = true ∧
      findById (removeExpense s id).1 id = none) := by
  constructor
  · intro h
    have hn : findIndex (fun e => e.id == id) s = none :=
      (findIndex_eq_none _ s).mpr (by simpa [findById] using h)
    simp [removeExpense, hn]
  · exact removeExpense_present id s hnd

/-- C5 witness: removing a present id from a two-record ledger, and a
not-found removal of an absent id. -/
theorem removeExpense_spec_witness :
    ((removeExpense demoAdd2 1).1.length + 1 = demoAdd2.length ∧
      (removeExpense demoAdd2 1).2 = true ∧
      findById (removeExpense demoAdd2 1).1 1 = none) ∧
    removeExpense demoAdd2 9 = (demoAdd2, false) :=
  ⟨(removeExpense_spec demoAdd2 1 (by decide)).2
      ⟨1, .num 10, "food", .str "a"⟩ (by decide),
   (removeExpense_spec demoAdd2 9 (by decide)).1 (by decide)⟩

/-- C6: an edit whose merged record fails validation is rejected
atomically, the ledger left exactly as it was, and an edit of an
absent id fails with NotFound. -/
theorem editExpense_atomic (s : List Expense) (id : Nat) (f : EditFields) :
    (findById s id = none → editExpense s id f = (s, some .NotFound)) ∧
    (∀ e err, findById s id = some e →
      checkValidity (f.amount.getD (.number e.amount))
        (f.category.getD e.category)
        (f.description.getD e.description) = some err →
      editExpense s id f = (s, some (.Invalid err))) := by
  constructor
  · intro h
    simp [editExpense, h]
  · intro e err he hv
    simp [editExpense, he, hv]

/-- C6 witness: an edit that would set a negative amount is rejected
with the amount error and no mutation, and an edit of an absent id
reports NotFound. -/
theorem editExpense_atomic_witness :
    editExpense demoAdd2 1 ⟨some (.number (.num (-5))), none, none⟩ =
      (demoAdd2, some (.Invalid .InvalidAmount)) ∧
    editExpense demoAdd2 9 ⟨some (.number (.num (-5))), none, none⟩ =
      (demoAdd2, some .NotFound) :=
  ⟨(editExpense_atomic demoAdd2 1 ⟨some (.number (.num (-5))), none, none⟩).2
      ⟨1, .num 10, "food", .str "a"⟩ .InvalidAmount (by decide) (by decide),
   (editExpense_atomic demoAdd2 9 ⟨some (.number (.num (-5))), none, none⟩).1
      (by decide)⟩

theorem jsSum_cons (e : Expense) (s : List Expense) :
    jsSum (e :: s) = jsAdd e.amount (jsSum s) := by
  unfold jsSum
  simp only [List.foldl_cons]
  rw [foldl_jsAdd_shift (fun e => e.amount) s, jsAdd_zero_left]

/-- C7: the running total computed by calculateTotal is additive over
concatenation of record sequences. -/
theorem calculateTotal_additive (A B : List Expense) :
    jsSum (A ++ B) = jsAdd (jsSum A) (jsSum B) := by
  unfold jsSum
  rw [List.foldl_append]
  exact foldl_jsAdd_shift (fun e => e.amount) B _

theorem foldl_add_shift {α : Type} (f : α → Nat) (l : List α) (t : Nat) :
    l.foldl (fun n x => n + f x) t = t + l.foldl (fun n x => n + f x) 0 := by
  induction l generalizing t with
  | nil => simp
  | cons y l ih =>
    simp only [List.foldl_cons]
    rw [ih (t + f y), ih (0 + f y)]
    omega

theorem countSum_cons (p : String × JSNum × Nat)
    (m : List (String × JSNum × Nat)) :
    countSum (p :: m) = p.2.2 + countSum m := by
  unfold countSum
  simp only [List.foldl_cons]
  rw [foldl_add_shift (fun q => q.2.2) m]
  omega

theorem grandTotal_cons (p : String × JSNum × Nat)
    (m : List (String × JSNum × Nat)) :
    grandTotal (p :: m) = jsAdd p.2.1 (grandTotal m) := by
  unfold grandTotal
  simp only [List.foldl_cons]
  rw [foldl_jsAdd_shift (fun q => q.2.1) m, jsAdd_zero_left]

theorem countSum_bump (c : String) (a : JSNum)
    (m : List (String × JSNum × Nat)) :
    countSum (bump c a m) = countSum m + 1 := by
  induction m with
  | nil => simp [bump, countSum]
  | cons p rest ih =>
    by_cases h : (p.1 == c) = true
    · simp only [bump, h, if_true, countSum_cons]
      omega
    · simp only [bump, h, if_false, Bool.false_eq_true, countSum_cons, ih]
      omega

theorem grandTotal_bump (c : String) (a : JSNum)
    (m : List (String × JSNum × Nat)) :
    grandTotal (bump c a m) = jsAdd (grandTotal m) a := by
  induction m with
  | nil =>
    simp [bump, grandTotal, jsAdd_zero_left]
  | cons p rest ih =>
    by_cases h : (p.1 == c) = true
    · simp only [bump, h, if_true, grandTotal_cons]
      rw [jsAdd_comm p.2.1 a, jsAdd_assoc, jsAdd_comm]
    · simp only [bump, h, if_false, Bool.false_eq_true, grandTotal_cons, ih,
        jsAdd_assoc]

theorem countSum_fold (s : List Expense) :
    ∀ m, countSum (s.foldl (fun m e => bump e.category e.amount m) m) =
      countSum m + s.length := by
  induction s with
  | nil => simp
  | cons e s ih =>
    intro m
    simp only [List.foldl_cons, List.length_cons]
    rw [ih, countSum_bump]
    omega

theorem grandTotal_fold (s : List Expense) :
    ∀ m, grandTotal (s.foldl (fun m e => bump e.category e.amount m) m) =
      jsAdd (grandTotal m) (jsSum s) := by
  induction s with
  | nil =>
    intro m
    simp [jsSum, jsAdd_zero_right]
  | cons e s ih =>
    intro m
    simp only [List.foldl_cons]
    rw [ih, grandTotal_bump, jsSum_cons, jsAdd_assoc]

theorem countSum_categoryTotals (s : List Expense) :
    countSum (categoryTotals s) = s.length := by
  simpa [countSum] using countSum_fold s []

theorem grandTotal_categoryTotals (s : List Expense) :
    grandTotal (categoryTotals s) = jsSum s := by
  simpa [grandTotal, jsAdd_zero_left] using grandTotal_fold s []

/-- C8: the per-category grouping of the report is a partition
homomorphism: its entry counts sum to the number of records, and its
entry totals sum to the grand total of all amounts. -/
theorem generateReport_partition (s : List Expense) :
    countSum (categoryTotals s) = s.length ∧
    grandTotal (categoryTotals s) = jsSum s :=
  ⟨countSum_categoryTotals s, grandTotal_categoryTotals s⟩

theorem amountPos_jsAdd (x y : JSNum) (hx : amountPos x = true)
    (hy : amountPos y = true) : amountPos (jsAdd x y) = true := by
  cases x with
  | num a =>
    cases y with
    | num b =>
      simp only [amountPos, decide_eq_true_eq] at hx hy
      simp only [jsAdd, amountPos, decide_eq_true_eq]
      linarith
    | nan => simp [amountPos] at hy
  | nan => simp [amountPos] at hx

theorem bump_pos (c : String) (a : JSNum)
    (m : List (String × JSNum × Nat)) (ha : amountPos a = true)
    (hm : ∀ p ∈ m, amountPos p.2.1 = true) :
    ∀ p ∈ bump c a m, amountPos p.2.1 = true := by
  induction m with
  | nil =>
    intro p hp
    simp only [bump, List.mem_singleton] at hp
    subst hp
    simpa [jsAdd_zero_left] using ha
  | cons q rest ih =>
    intro p hp
    by_cases h : (q.1 == c) = true
    · simp only [bump, h, if_true] at hp
      rcases List.mem_cons.mp hp with rfl | hp'
      · exact amountPos_jsAdd _ _ (hm q (List.mem_cons_self q rest)) ha
      · exact hm p (List.mem_cons_of_mem q hp')
    · simp only [bump, h, Bool.false_eq_true, if_false] at hp
      rcases List.mem_cons.mp hp with rfl | hp'
      · exact hm p (List.mem_cons_self p rest)
      · exact ih (fun r hr => hm r (List.mem_cons_of_mem q hr)) p hp'

theorem categoryTotals_pos (s : List Expense)
    (hv : ∀ e ∈ s, amountPos e.amount = true) :
    ∀ p ∈ categoryTotals s, amountPos p.2.1 = true := by
  suffices h : ∀ (s : List Expense), (∀ e ∈ s, amountPos e.amount = true) →
      ∀ (m : List (String × JSNum × Nat)),
      (∀ p ∈ m, amountPos p.2.1 = true) →
      ∀ p ∈ s.foldl (fun m e => bump e.category e.amount m) m,
        amountPos p.2.1 = true by
    exact h s hv [] (by simp)
  intro s
  induction s with
  | nil => intro _ m hm p hp; exact hm p hp
  | cons e s ih =>
    intro hs m hm p hp
    simp only [List.foldl_cons] at hp
    exact ih (fun e2 he2 => hs e2 (List.mem_cons_of_mem e he2))
      (bump e.category e.amount m)
      (bump_pos e.category e.amount m
        (hs e (List.mem_cons_self e s)) hm) p hp

theorem categoryTotals_ne_nil (s : List Expense) (h : s ≠ []) :
    categoryTotals s ≠ [] := by
  intro hc
  apply h
  have hcount := countSum_categoryTotals s
  rw [hc] at hcount
  simp only [countSum, List.foldl_nil] at hcount
  exact List.length_eq_zero.mp hcount.symm

theorem pick_fold_first_max :
    ∀ l : List (String × JSNum × Nat),
      (∀ p ∈ l, amountPos p.2.1 = true) →
      ∀ (acc : String × JSNum) (qa : ℚ), acc.2 = .num qa →
      (l.foldl pick acc = acc ∧ ∀ p ∈ l, jsGt p.2.1 acc.2 = false) ∨
      (∃ i : Fin l.length,
        l.foldl pick acc = ((l.get i).1, (l.get i).2.1) ∧
        jsGt (l.get i).2.1 acc.2 = true ∧
        (∀ j : Fin l.length, jsGt (l.get j).2.1 (l.get i).2.1 = false) ∧
        (∀ j : Fin l.length, j.val < i.val →
          jsGt (l.get i).2.1 (l.get j).2.1 = true)) := by
  intro l
  induction l with
  | nil =>
    intro _ acc qa _
    exact Or.inl ⟨rfl, by simp⟩
  | cons p rest ih =>
    intro hpos acc qa hacc
    obtain ⟨qp, hqp, hqppos⟩ : ∃ qp, p.2.1 = .num qp ∧ 0 < qp := by
      have hap := hpos p (List.mem_cons_self p rest)
      cases hp21 : p.2.1 with
      | num q =>
        rw [hp21] at hap
        exact ⟨q, rfl, by simpa [amountPos] using hap⟩
      | nan => rw [hp21] at hap; simp [amountPos] at hap
    have hrestpos : ∀ q ∈ rest, amountPos q.2.1 = true :=
      fun q hq => hpos q (List.mem_cons_of_mem p hq)
    simp only [List.foldl_cons]
    cases hgt : jsGt p.2.1 acc.2 with
    | true =>
      have hpick : pick acc p = (p.1, p.2.1) := by simp [pick, hgt]
      rw [hpick]
      rcases ih hrestpos (p.1, p.2.1) qp (by simpa using hqp) with
        ⟨hfold, hall⟩ | ⟨i, hfold, higt, hmax, hfirst⟩
      · refine Or.inr ⟨⟨0, by simp⟩, hfold, hgt, ?_, ?_⟩
        · intro j
          rcases j with ⟨jv, hj⟩
          cases jv with
          | zero =>
            show jsGt p.2.1 p.2.1 = false
            rw [hqp]; simp [jsGt]
          | succ n =>
            have hn : n < rest.length := Nat.lt_of_succ_lt_succ hj
            exact hall _ (List.get_mem rest n hn)
        · intro j hj0
          exact absurd hj0 (Nat.not_lt_zero j.val)
      · obtain ⟨qi, hqi, hqipos⟩ :
            ∃ qi, (rest.get i).2.1 = .num qi ∧ 0 < qi := by
          have hap := hrestpos _ (List.get_mem rest i.val i.isLt)
          cases hi21 : (rest.get i).2.1 with
          | num q =>
            rw [hi21] at hap
            exact ⟨q, rfl, by simpa [amountPos] using hap⟩
          | nan => rw [hi21] at hap; simp [amountPos] at hap
        have h1 : qp < qi := by
          rw [hqi] at higt
          simpa [jsGt, hqp] using higt
        have h2 : qa < qp := by
          rw [hacc, hqp] at hgt
          simpa [jsGt] using hgt
        refine Or.inr ⟨⟨i.val + 1, Nat.succ_lt_succ i.isLt⟩, hfold, ?_, ?_, ?_⟩
        · show jsGt (rest.get i).2.1 acc.2 = true
          rw [hqi, hacc]
          simp only [jsGt, decide_eq_true_eq]
          linarith
        · intro j
          rcases j with ⟨jv, hj⟩
          cases jv with
          | zero =>
            show jsGt p.2.1 (rest.get i).2.1 = false
            rw [hqp, hqi]
            simp only [jsGt, decide_eq_false_iff_not, not_lt]
            linarith
          | succ n =>
            have hn : n < rest.length := Nat.lt_of_succ_lt_succ hj
            exact hmax ⟨n, hn⟩
        · intro j hjlt
          rcases j with ⟨jv, hj⟩
          cases jv with
          | zero =>
            show jsGt (rest.get i).2.1 p.2.1 = true
            rw [hqp, hqi]
            simp only [jsGt, decide_eq_true_eq]
            exact h1
          | succ n =>
            have hn : n < rest.length := Nat.lt_of_succ_lt_succ hj
            exact hfirst ⟨n, hn⟩ (Nat.lt_of_succ_lt_succ hjlt)
    | false =>
      have hpick : pick acc p = acc := by simp [pick, hgt]
      rw [hpick]
      rcases ih hrestpos acc qa hacc with
        ⟨hfold, hall⟩ | ⟨i, hfold, higt, hmax, hfirst⟩
      · refine Or.inl ⟨hfold, ?_⟩
        intro q hq
        rcases List.mem_cons.mp hq with rfl | hq'
        · exact hgt
        · exact hall q hq'
      · obtain ⟨qi, hqi, hqipos⟩ :
            ∃ qi, (rest.get i).2.1 = .num qi ∧ 0 < qi := by
          have hap := hrestpos _ (List.get_mem rest i.val i.isLt)
          cases hi21 : (rest.get i).2.1 with
          | num q =>
            rw [hi21] at hap
            exact ⟨q, rfl, by simpa [amountPos] using hap⟩
          | nan => rw [hi21] at hap; simp [amountPos] at hap
        have h1 : qa < qi := by
          rw [hqi, hacc] at higt
          simpa [jsGt] using higt
        have h2 : ¬ qa < qp := by
          rw [hacc, hqp] at hgt
          simpa [jsGt] using hgt
        refine Or.inr ⟨⟨i.val + 1, Nat.succ_lt_succ i.isLt⟩, hfold, higt, ?_, ?_⟩
        · intro j
          rcases j with ⟨jv, hj⟩
          cases jv with
          | zero =>
            show jsGt p.2.1 (rest.get i).2.1 = false
            rw [hqp, hqi]
            simp only [jsGt, decide_eq_false_iff_not, not_lt]
            linarith [not_lt.mp h2]
          | succ n =>
            have hn : n < rest.length := Nat.lt_of_succ_lt_succ hj
            exact hmax ⟨n, hn⟩
        · intro j hjlt
          rcases j with ⟨jv, hj⟩
          cases jv with
          | zero =>
            show jsGt (rest.get i).2.1 p.2.1 = true
            rw [hqp, hqi]
            simp only [jsGt, decide_eq_true_eq]
            linarith [not_lt.mp h2]
          | succ n =>
            have hn : n < rest.length := Nat.lt_of_succ_lt_succ hj
            exact hfirst ⟨n, hn⟩ (Nat.lt_of_succ_lt_succ hjlt)

/-- C9: for every non-empty sequence of well-formed records (amounts
strictly positive, as the data model requires), topCategory returns
the per-category entry carrying the largest total, ties broken in
favour of the entry first encountered in iteration order (every other
entry's total is not greater, and every earlier entry's total is
strictly smaller); for the empty sequence it returns none. -/
theorem report_top_category (s : List Expense)
    (hv : ∀ e ∈ s, amountPos e.amount = true) :
    (s = [] → topCategory s = none) ∧
    (s ≠ [] → ∃ i : Fin (categoryTotals s).length,
      topCategory s =
        some (((categoryTotals s).get i).1,
          ((categoryTotals s).get i).2.1) ∧
      (∀ j : Fin (categoryTotals s).length,
        jsGt ((categoryTotals s).get j).2.1
          ((categoryTotals s).get i).2.1 = false) ∧
      (∀ j : Fin (categoryTotals s).length, j.val < i.val →
        jsGt ((categoryTotals s).get i).2.1
          ((categoryTotals s).get j).2.1 = true)) := by
  constructor
  · intro h; subst h; rfl
  · intro hne
    have hpos : ∀ p ∈ categoryTotals s, amountPos p.2.1 = true :=
      categoryTotals_pos s hv
    have hlen : s.length ≠ 0 := fun h => hne (List.length_eq_zero.mp h)
    have htop : topCategory s =
        some ((categoryTotals s).foldl pick ("", .num 0)) := by
      simp [topCategory, generateReport, hlen]
    rcases pick_fold_first_max (categoryTotals s) hpos ("", .num 0) 0 rfl with
      ⟨_, hall⟩ | ⟨i, hfold, _, hmax, hfirst⟩
    · exfalso
      obtain ⟨p, rest, hcons⟩ : ∃ p rest, categoryTotals s = p :: rest := by
        cases hct : categoryTotals s with
        | nil => exact absurd hct (categoryTotals_ne_nil s hne)
        | cons p rest => exact ⟨p, rest, rfl⟩
      have hp : p ∈ categoryTotals s := by
        rw [hcons]; exact List.mem_cons_self p rest
      obtain ⟨qp, hqp, hqppos⟩ : ∃ qp, p.2.1 = .num qp ∧ 0 < qp := by
        have hap := hpos p hp
        cases hp21 : p.2.1 with
        | num q =>
          rw [hp21] at hap
          exact ⟨q, rfl, by simpa [amountPos] using hap⟩
        | nan => rw [hp21] at hap; simp [amountPos] at hap
      have := hall p hp
      rw [hqp] at this
      simp only [jsGt, decide_eq_false_iff_not, not_lt] at this
      linarith
    · exact ⟨i, by rw [htop, hfold], hmax, hfirst⟩

/-- A concrete ledger for the C9 witness, after three valid additions
(10 food, 25 transport, 5 food). -/
def demoReportLedger : List Expense :=
  (addExpense (addExpense
    (addExpense [] (.number (.num 10)) "food" (.str "lunch")).1
    (.number (.num 25)) "transport" (.str "taxi")).1
    (.number (.num 5)) "food" (.str "coffee")).1

/-- C9 witness: the first-maximal-entry property instantiated at the
spec's three-record scenario. -/
theorem report_top_category_witness :
    (demoReportLedger = [] → topCategory demoReportLedger = none) ∧
    (demoReportLedger ≠ [] →
      ∃ i : Fin (categoryTotals demoReportLedger).length,
      topCategory demoReportLedger =
        some (((categoryTotals demoReportLedger).get i).1,
          ((categoryTotals demoReportLedger).get i).2.1) ∧
      (∀ j : Fin (categoryTotals demoReportLedger).length,
        jsGt ((categoryTotals demoReportLedger).get j).2.1
          ((categoryTotals demoReportLedger).get i).2.1 = false) ∧
      (∀ j : Fin (categoryTotals demoReportLedger).length, j.val < i.val →
        jsGt ((categoryTotals demoReportLedger).get i).2.1
          ((categoryTotals demoReportLedger).get j).2.1 = true)) :=
  report_top_category demoReportLedger (by decide)

end ExpenseTracker
